import Mathlib

/-!
Shallow embedding of `src/crates/bevy_render/src/world_sync.rs` and
`src/crates/bevy_ecs/src/storage/sorted_vec_set.rs`.

Entities are modelled as natural numbers.  The main world stores, for each
entity, whether the `SyncRenderWorld` tag component is present and the optional
`RenderEntity` forward-link component.  The render world stores, for each
entity, the optional `MainEntity` back-link component and the `RenderFlyEntity`
marker, together with the next identifier a `spawn` would allocate.
-/

namespace WorldSync

/-- State of one main-world entity: `tag` is presence of `SyncRenderWorld`,
`renderEntity` is the `RenderEntity` forward-link component. -/
structure MainEntityState where
  tag : Bool
  renderEntity : Option Nat
deriving DecidableEq, Repr

/-- State of one render-world entity: `mainEntity` is the `MainEntity`
back-link component, `fly` is presence of `RenderFlyEntity`. -/
structure RenderEntityState where
  mainEntity : Option Nat
  fly : Bool
deriving DecidableEq, Repr

/-- The main world: a partial map from entity id to component state. -/
structure MainWorld where
  entities : Nat → Option MainEntityState

/-- The render world: a partial map from entity id to component state, plus
the id the next `spawn` allocates. -/
structure RenderWorld where
  nextId : Nat
  entities : Nat → Option RenderEntityState

/-- Type `EntityRecord` from `world_sync.rs`: `Added` carries a main-world entity,
`Removed` carries a render-world entity. -/
inductive EntityRecord where
  | Added (e : Nat)
  | Removed (e : Nat)
deriving DecidableEq, Repr

/-- Overwrite the component state of main-world entity `e`. -/
def MainWorld.set (mw : MainWorld) (e : Nat) (st : MainEntityState) : MainWorld :=
  ⟨fun n => if n = e then some st else mw.entities n⟩

/-- Operation `render_world.spawn(MainEntity(m))`: allocate `nextId`, attach the
back link, return the new world and the allocated id. -/
def RenderWorld.spawn (rw : RenderWorld) (m : Nat) : RenderWorld × Nat :=
  (⟨rw.nextId + 1,
    fun n => if n = rw.nextId then some ⟨some m, false⟩ else rw.entities n⟩,
   rw.nextId)

/-- Operation `world.despawn(e)` / `despawn_recursive` (no hierarchy in this excerpt). -/
def RenderWorld.despawn (rw : RenderWorld) (e : Nat) : RenderWorld :=
  ⟨rw.nextId, fun n => if n = e then none else rw.entities n⟩

/-- One iteration of the `for record in pending.drain(..)` loop of
`entity_sync_system`.
`Added(e)`: if the main entity exists and its `RenderEntity` entry is vacant,
spawn a render entity with a `MainEntity(e)` back link and insert the forward
link; if the entry is occupied, do nothing.
`Removed(e)`: if render entity `e` exists, despawn it, else do nothing. -/
def applyRecord : MainWorld × RenderWorld → EntityRecord → MainWorld × RenderWorld
  | (mw, rw), .Added e =>
    match mw.entities e with
    | none => (mw, rw)
    | some st =>
      match st.renderEntity with
      | some _ => (mw, rw)
      | none =>
        let s := rw.spawn e
        (mw.set e ⟨st.tag, some s.2⟩, s.1)
  | (mw, rw), .Removed e =>
    match rw.entities e with
    | none => (mw, rw)
    | some _ => (mw, rw.despawn e)

/-- The drain loop of `entity_sync_system`: records are consumed front first,
in the order they were pushed. -/
def entity_sync_system : MainWorld × RenderWorld → List EntityRecord → MainWorld × RenderWorld
  | s, [] => s
  | s, r :: rest => entity_sync_system (applyRecord s r) rest

/-- The whole synchronization state: both worlds plus the
`PendingSyncEntity` record queue. -/
structure SyncState where
  main : MainWorld
  render : RenderWorld
  pending : List EntityRecord

/-- One sync cycle: `entity_sync_system` drains the pending queue
(`pending.drain(..)` leaves it empty). -/
def runCycle (s : SyncState) : SyncState :=
  ⟨(entity_sync_system (s.main, s.render) s.pending).1,
   (entity_sync_system (s.main, s.render) s.pending).2, []⟩

/-- A tag attach/detach operation on a main-world entity. -/
inductive TagOp where
  | attach (e : Nat)
  | detach (e : Nat)

/-- The observers registered by `WorldSyncPlugin::build`.
Attach fires `OnAdd` on `SyncRenderWorld` and pushes `Added(entity)`.
Detach fires `OnRemove`; the observer queries the entity's `RenderEntity` and
pushes `Removed(render_id)` only when that query succeeds — when there is no
forward link it pushes nothing. -/
def applyTagOp (s : SyncState) : TagOp → SyncState
  | .attach e =>
    match s.main.entities e with
    | none => s
    | some st =>
      if st.tag then s
      else ⟨s.main.set e ⟨true, st.renderEntity⟩, s.render, s.pending ++ [.Added e]⟩
  | .detach e =>
    match s.main.entities e with
    | none => s
    | some st =>
      if st.tag then
        ⟨s.main.set e ⟨false, st.renderEntity⟩, s.render,
         match st.renderEntity with
         | some link => s.pending ++ [.Removed link]
         | none => s.pending⟩
      else s

/-- Apply a finite sequence of tag operations, accumulating records. -/
def applyTagOps (s : SyncState) (ops : List TagOp) : SyncState :=
  ops.foldl applyTagOp s

/-- The `RenderEntity` forward link of main entity `p`, when present. -/
def forwardLink (mw : MainWorld) (p : Nat) : Option Nat :=
  (mw.entities p).bind (fun st => st.renderEntity)

/-- Entity `p` currently carries the `SyncRenderWorld` tag. -/
def isTagged (mw : MainWorld) (p : Nat) : Prop :=
  ∃ st, mw.entities p = some st ∧ st.tag = true

/-- Some render-world entity carries a `MainEntity` back link to `p`. -/
def isBackLinkTarget (rw : RenderWorld) (p : Nat) : Prop :=
  ∃ r st, rw.entities r = some st ∧ st.mainEntity = some p

/-- Render entity `r` exists and carries a `MainEntity` back link. -/
def isBackLinked (rw : RenderWorld) (r : Nat) : Prop :=
  ∃ st, rw.entities r = some st ∧ st.mainEntity ≠ none

/-- The identity-map / forward-link pair relation: `p ↦ s`. -/
def linkPair (mw : MainWorld) (p s : Nat) : Prop :=
  forwardLink mw p = some s

instance (mw : MainWorld) (p s : Nat) : Decidable (linkPair mw p s) :=
  inferInstanceAs (Decidable (forwardLink mw p = some s))

/-- Helper for `despawn_fly_entity`: insertion of one id into an ascending list
(modelling `sort_unstable_by_key(|e| e.index())` on collected ids). -/
def sortInsert (x : Nat) : List Nat → List Nat
  | [] => [x]
  | y :: ys => if x ≤ y then x :: y :: ys else y :: sortInsert x ys

/-- Ascending sort of the collected ids. -/
def sortAscending (l : List Nat) : List Nat := l.foldr sortInsert []

/-- The order in which `despawn_fly_entity` destroys the collected entities:
sort ascending by index, then `drain(..).rev()`. -/
def despawnOrder (matched : List Nat) : List Nat :=
  (sortAscending matched).reverse

/-- Function `despawn_fly_entity`: `matched` is the list of ids collected from the
query over `RenderFlyEntity`; each is despawned in `despawnOrder`. -/
def despawn_fly_entity (rw : RenderWorld) (matched : List Nat) : RenderWorld :=
  (despawnOrder matched).foldl RenderWorld.despawn rw

end WorldSync

namespace SortedVecSet

/-!
Embedding of `SortedVecSet<N>` over `List Nat` (the `usize` payload of the
`SmallVec`; the inline capacity `N` does not affect behaviour).  The mutable
`retain` loops with the cursor `j` into `other` are embedded by carrying the
remaining suffix of `other`: advancing `j` past all elements smaller than
`current` is `dropWhile (· < current)` on that suffix.
-/

/-- Constructor `SortedVecSet::new`. -/
def new : List Nat := []

/-- Operation `SortedVecSet::clear`. -/
def clear (_l : List Nat) : List Nat := []

/-- Operation `SortedVecSet::contains` (membership in the sorted vector). -/
def contains (l : List Nat) (x : Nat) : Bool := l.contains x

/-- Operation `SortedVecSet::insert`: `binary_search` on a sorted vector finds the
insertion point; inserting there keeps order, and an exact hit is a no-op. -/
def insert : List Nat → Nat → List Nat
  | [], x => [x]
  | y :: ys, x =>
    if x < y then x :: y :: ys
    else if x = y then y :: ys
    else y :: insert ys x

/-- Operation `SortedVecSet::remove`: remove the element found by `binary_search`
(on a sorted duplicate-free vector, the occurrence of `x`) if present. -/
def remove : List Nat → Nat → List Nat
  | [], _ => []
  | y :: ys, x => if x = y then ys else y :: remove ys x

/-- Constructor `SortedVecSet::from_vec`: start empty and `insert` every element. -/
def from_vec (v : List Nat) : List Nat := v.foldl insert new

/-- The `retain` loop of `difference_with`: `keep` holds the not-yet-visited
elements of `self`, `other` the suffix from the cursor `j` on.  Each step
first advances the cursor past smaller elements, then keeps `current` iff
`j < other.len() && !(other[j] == current)`. -/
def difference_with_go : List Nat → List Nat → List Nat
  | [], _ => []
  | c :: rest, other =>
    match other.dropWhile (fun o => decide (o < c)) with
    | [] => difference_with_go rest []
    | o :: os =>
      if o = c then difference_with_go rest (o :: os)
      else c :: difference_with_go rest (o :: os)

/-- Operation `SortedVecSet::difference_with`. -/
def difference_with (l other : List Nat) : List Nat :=
  difference_with_go l other

/-- The `retain` loop of `intersect_with`: keeps `current` iff
`j < other.len() && other[j] == current`. -/
def intersect_with_go : List Nat → List Nat → List Nat
  | [], _ => []
  | c :: rest, other =>
    match other.dropWhile (fun o => decide (o < c)) with
    | [] => intersect_with_go rest []
    | o :: os =>
      if o = c then c :: intersect_with_go rest (o :: os)
      else intersect_with_go rest (o :: os)

/-- Operation `SortedVecSet::intersect_with`. -/
def intersect_with (l other : List Nat) : List Nat :=
  intersect_with_go l other

/-- Operation `SortedVecSet::union_with`: the in-place merge loop.  `Less`
advances past the own element, `Greater` inserts the other's element at the
cursor — so the next iteration compares that inserted element — `Equal`
advances past both; when either side runs out, the tail loop pushes the rest
of `other`. -/
def union_with : List Nat → List Nat → List Nat
  | xs, [] => xs
  | [], y :: ys => y :: ys
  | x :: xs, y :: ys =>
    if x < y then x :: union_with xs (y :: ys)
    else if y < x then union_with (y :: x :: xs) ys
    else x :: union_with xs ys
termination_by l m => l.length + 2 * m.length

/-- The invariant of the structure: strictly increasing, hence
duplicate-free. -/
def Inv (l : List Nat) : Prop := List.Sorted (· < ·) l

instance : DecidablePred Inv := fun l =>
  inferInstanceAs (Decidable (List.Pairwise _ l))

end SortedVecSet

namespace WorldSync

/-! Concrete worlds used by witnesses and counterexamples. -/

/-- A main world holding exactly one entity, id 1, untagged and unlinked. -/
def mwOne : MainWorld := ⟨fun n => if n = 1 then some ⟨false, none⟩ else none⟩

/-- A main world holding a single entity, id 0, with a forward link to 5. -/
def mwLinked : MainWorld := ⟨fun n => if n = 0 then some ⟨true, some 5⟩ else none⟩

/-- A main world holding entities 0 and 1, both tagged and unlinked. -/
def mwTwo : MainWorld := ⟨fun n => if n ≤ 1 then some ⟨true, none⟩ else none⟩

/-- An empty render world. -/
def rwEmpty : RenderWorld := ⟨0, fun _ => none⟩

/-- Initial sync state for the single-entity scenarios. -/
def sInit : SyncState := ⟨mwOne, rwEmpty, []⟩

/-- Entity 1 tagged then untagged before any cycle runs. -/
def sToggle : SyncState := applyTagOps sInit [.attach 1, .detach 1]

/-- One cycle after the toggle. -/
def sAfterCycle : SyncState := runCycle sToggle

/-- Round trip, first cycle: tag entity 1 and run a cycle. -/
def sRT1 : SyncState := runCycle (applyTagOps sInit [.attach 1])

/-- Round trip, second cycle: untag entity 1 and run another cycle. -/
def sRT2 : SyncState := runCycle (applyTagOps sRT1 [.detach 1])

/-- Result of processing Added 0 then Added 1 from two tagged, unlinked
entities and an empty render world. -/
def wAB : MainWorld × RenderWorld :=
  entity_sync_system (mwTwo, rwEmpty) [.Added 0, .Added 1]

/-- Result of processing Added 1 then Added 0 from the same initial state. -/
def wBA : MainWorld × RenderWorld :=
  entity_sync_system (mwTwo, rwEmpty) [.Added 1, .Added 0]

/-! Helper lemmas about single record application. -/

theorem set_entities (mw : MainWorld) (e : Nat) (st : MainEntityState) (n : Nat) :
    (mw.set e st).entities n = if n = e then some st else mw.entities n := rfl

theorem added_absent_nop (mw : MainWorld) (rw : RenderWorld) (e : Nat)
    (h : mw.entities e = none) :
    applyRecord (mw, rw) (.Added e) = (mw, rw) := by
  simp [applyRecord, h]

theorem added_occupied_nop (mw : MainWorld) (rw : RenderWorld) (e l : Nat)
    (st : MainEntityState) (h1 : mw.entities e = some st)
    (h2 : st.renderEntity = some l) :
    applyRecord (mw, rw) (.Added e) = (mw, rw) := by
  simp [applyRecord, h1, h2]

theorem added_vacant_spawns (mw : MainWorld) (rw : RenderWorld) (e : Nat)
    (st : MainEntityState) (h1 : mw.entities e = some st)
    (h2 : st.renderEntity = none) :
    applyRecord (mw, rw) (.Added e) =
      (mw.set e ⟨st.tag, some rw.nextId⟩, (rw.spawn e).1) := by
  simp [applyRecord, h1, h2, RenderWorld.spawn]

/-- C4: processing an Added record for a primary entity that already carries a
forward link is a no-op: no secondary entity is spawned and both worlds (hence
the identity map and the entity's forward link) are left unchanged. -/
theorem C4_added_idempotent (mw : MainWorld) (rw : RenderWorld) (p link : Nat)
    (st : MainEntityState) (h1 : mw.entities p = some st)
    (h2 : st.renderEntity = some link) :
    applyRecord (mw, rw) (.Added p) = (mw, rw) :=
  added_occupied_nop mw rw p link st h1 h2

/-- Witness for C4 at entity 0 of `mwLinked`, which carries forward link 5. -/
theorem C4_added_idempotent_witness :
    mwLinked.entities 0 = some ⟨true, some 5⟩ ∧
    applyRecord (mwLinked, rwEmpty) (.Added 0) = (mwLinked, rwEmpty) :=
  ⟨rfl, C4_added_idempotent mwLinked rwEmpty 0 5 ⟨true, some 5⟩ rfl rfl⟩

/-- C6: a Removed record whose render-world entity no longer exists mutates
nothing and raises no fault (in the code the record always carries a concrete
render-world id; when `get_entity_mut` returns `None` the record is skipped). -/
theorem C6_removed_missing_noop (mw : MainWorld) (rw : RenderWorld) (e : Nat)
    (h : rw.entities e = none) :
    applyRecord (mw, rw) (.Removed e) = (mw, rw) := by
  simp [applyRecord, h]

/-- Witness for C6: removing render entity 7 from the empty render world. -/
theorem C6_removed_missing_noop_witness :
    rwEmpty.entities 7 = none ∧
    applyRecord (mwOne, rwEmpty) (.Removed 7) = (mwOne, rwEmpty) :=
  ⟨rfl, C6_removed_missing_noop mwOne rwEmpty 7 rfl⟩

/-- C7: the drain is FIFO — processing a concatenation of record batches
processes the earlier-pushed batch first — and after `runCycle` the pending
queue is empty. -/
theorem C7_fifo_drain_then_empty (w : MainWorld × RenderWorld)
    (q1 q2 : List EntityRecord) (s : SyncState) :
    entity_sync_system w (q1 ++ q2) =
      entity_sync_system (entity_sync_system w q1) q2 ∧
    (runCycle s).pending = [] := by
  refine ⟨?_, rfl⟩
  induction q1 generalizing w with
  | nil => rfl
  | cons r rest ih => simpa [entity_sync_system] using ih (applyRecord w r)

/-- C1: the sync invariant fails on the code.  Tagging entity 1 and untagging
it before any cycle leaves only the Added record in the queue (the detach
observer pushes nothing without a forward link); after one full cycle a
back-linked secondary entity exists for 1 although 1 no longer carries the
tag, so the set of back-link targets differs from the set of tagged
primaries. -/
theorem C1_invariant_fails_after_toggle :
    sToggle.pending = [.Added 1] ∧
    ¬ (∀ p, isBackLinkTarget sAfterCycle.render p ↔ isTagged sAfterCycle.main p) := by
  refine ⟨by decide, fun h => ?_⟩
  have h1 : isBackLinkTarget sAfterCycle.render 1 :=
    ⟨0, ⟨some 1, false⟩, by decide, rfl⟩
  obtain ⟨st, hst, htag⟩ := (h 1).mp h1
  have he : sAfterCycle.main.entities 1 = some ⟨false, some 0⟩ := by decide
  rw [he] at hst
  cases hst
  cases htag

/-- C2: tagging then untagging entity 1 before a cycle leaves the queue as
just the Added record — no Removed record, resolved or unresolved, is pushed —
and after one cycle the secondary store holds a mirrored entity (render id 0,
back link 1) while entity 1 carries forward link 0, contrary to the claimed
empty secondary store and absent forward link. -/
theorem C2_detach_before_cycle_leaks :
    sToggle.pending = [.Added 1] ∧
    sAfterCycle.render.entities 0 = some ⟨some 1, false⟩ ∧
    sAfterCycle.main.entities 1 = some ⟨false, some 0⟩ := by
  decide

/-- C3 counterexample: after the round trip on entity 1 the secondary entity
(render id 0) is destroyed, but the identity-map / forward-link entry of
entity 1 is not absent — it still points at the despawned id 0. -/
theorem C3_counterexample :
    sRT2.render.entities 0 = none ∧
    forwardLink sRT2.main 1 ≠ none ∧
    forwardLink sRT2.main 1 = some 0 := by
  decide

/-- C3 amended: tagging `p` and running a cycle creates a mapped secondary
entity (render id `rw.nextId`, back link `p`, forward link on `p`); untagging
`p` and running another cycle destroys that secondary entity, but `p`'s
identity-map / forward-link entry remains, now dangling — the Removed step
never removes it. -/
theorem C3_roundtrip_amended (mw : MainWorld) (rw : RenderWorld) (p : Nat)
    (hp : mw.entities p = some ⟨false, none⟩) :
    (runCycle (applyTagOps ⟨mw, rw, []⟩ [.attach p])).render.entities rw.nextId =
      some ⟨some p, false⟩ ∧
    forwardLink (runCycle (applyTagOps ⟨mw, rw, []⟩ [.attach p])).main p =
      some rw.nextId ∧
    (runCycle (applyTagOps (runCycle (applyTagOps ⟨mw, rw, []⟩ [.attach p]))
        [.detach p])).render.entities rw.nextId = none ∧
    forwardLink (runCycle (applyTagOps (runCycle (applyTagOps ⟨mw, rw, []⟩ [.attach p]))
        [.detach p])).main p = some rw.nextId := by
  simp [applyTagOps, applyTagOp, hp, runCycle, entity_sync_system, applyRecord,
    RenderWorld.spawn, RenderWorld.despawn, MainWorld.set, forwardLink]

/-- Witness for the amended C3 at entity 1 of `mwOne` with the empty render
world (`nextId` 0). -/
theorem C3_roundtrip_amended_witness :
    mwOne.entities 1 = some ⟨false, none⟩ ∧
    (runCycle (applyTagOps ⟨mwOne, rwEmpty, []⟩ [.attach 1])).render.entities 0 =
      some ⟨some 1, false⟩ ∧
    forwardLink (runCycle (applyTagOps (runCycle (applyTagOps ⟨mwOne, rwEmpty, []⟩
        [.attach 1])) [.detach 1])).main 1 = some 0 :=
  ⟨rfl, (C3_roundtrip_amended mwOne rwEmpty 1 rfl).1,
   (C3_roundtrip_amended mwOne rwEmpty 1 rfl).2.2.2⟩

/-! Lemmas for the ephemeral reaper. -/

theorem sortInsert_perm (x : Nat) (l : List Nat) :
    (sortInsert x l).Perm (x :: l) := by
  induction l with
  | nil => exact List.Perm.refl _
  | cons y ys ih =>
    by_cases h : x ≤ y
    · simp [sortInsert, h]
    · simp only [sortInsert, if_neg h]
      exact (ih.cons y).trans (List.Perm.swap x y ys)

theorem sortAscending_perm (l : List Nat) : (sortAscending l).Perm l := by
  induction l with
  | nil => exact List.Perm.refl _
  | cons y ys ih =>
    exact (sortInsert_perm y (sortAscending ys)).trans (ih.cons y)

theorem mem_sortInsert (z x : Nat) (l : List Nat) :
    z ∈ sortInsert x l ↔ z = x ∨ z ∈ l :=
  ⟨fun h => by simpa using (sortInsert_perm x l).mem_iff.mp h,
   fun h => (sortInsert_perm x l).mem_iff.mpr (by simpa using h)⟩

theorem sortInsert_sorted (x : Nat) (l : List Nat)
    (h : List.Sorted (· ≤ ·) l) : List.Sorted (· ≤ ·) (sortInsert x l) := by
  induction l with
  | nil => simp [sortInsert]
  | cons y ys ih =>
    rw [List.sorted_cons] at h
    by_cases hxy : x ≤ y
    · rw [sortInsert, if_pos hxy, List.sorted_cons]
      refine ⟨fun b hb => ?_, List.sorted_cons.mpr h⟩
      rcases List.mem_cons.mp hb with hb | hb
      · exact hb ▸ hxy
      · exact le_trans hxy (h.1 b hb)
    · rw [sortInsert, if_neg hxy, List.sorted_cons]
      refine ⟨fun b hb => ?_, ih h.2⟩
      rcases (mem_sortInsert b x ys).mp hb with hb | hb
      · exact hb ▸ le_of_not_le hxy
      · exact h.1 b hb

theorem sortAscending_sorted (l : List Nat) :
    List.Sorted (· ≤ ·) (sortAscending l) := by
  induction l with
  | nil => simp [sortAscending]
  | cons y ys ih => exact sortInsert_sorted y (sortAscending ys) ih

theorem despawn_fold_none (rw : RenderWorld) (l : List Nat) (e : Nat)
    (h : rw.entities e = none) :
    (l.foldl RenderWorld.despawn rw).entities e = none := by
  induction l generalizing rw with
  | nil => exact h
  | cons a rest ih =>
    exact ih (RenderWorld.despawn rw a) (by simp [RenderWorld.despawn, h])

theorem despawn_fold_mem_none (rw : RenderWorld) (l : List Nat) (e : Nat)
    (h : e ∈ l) :
    (l.foldl RenderWorld.despawn rw).entities e = none := by
  induction l generalizing rw with
  | nil => cases h
  | cons a rest ih =>
    rcases List.mem_cons.mp h with h | h
    · subst h
      exact despawn_fold_none _ rest e (by simp [RenderWorld.despawn])
    · exact ih (RenderWorld.despawn rw a) h

/-- C5: the ephemeral reaper sorts the collected identifiers ascending and
destroys them in descending order — the destruction order is a permutation of
the collected ids, sorted descending; for collected ids 5, 2, 9 the order is
9, 5, 2; and every collected entity ends up despawned. -/
theorem C5_reaper_descending_order :
    (∀ l, (despawnOrder l).Perm l) ∧
    (∀ l, List.Sorted (fun a b => b ≤ a) (despawnOrder l)) ∧
    despawnOrder [5, 2, 9] = [9, 5, 2] ∧
    (∀ rw l e, e ∈ l → (despawn_fly_entity rw l).entities e = none) := by
  refine ⟨fun l => (List.reverse_perm _).trans (sortAscending_perm l),
    fun l => ?_, by decide, fun rw l e he => ?_⟩
  · rw [despawnOrder, List.Sorted, List.pairwise_reverse]
    exact sortAscending_sorted l
  · refine despawn_fold_mem_none rw (despawnOrder l) e ?_
    rw [despawnOrder, List.mem_reverse]
    exact (sortAscending_perm l).mem_iff.mpr he

/-- Witness for C5 at the collected ids 5, 2, 9 and entity 9. -/
theorem C5_reaper_descending_order_witness :
    (9 : Nat) ∈ [5, 2, 9] ∧
    (despawn_fly_entity rwEmpty [5, 2, 9]).entities 9 = none :=
  ⟨by decide, C5_reaper_descending_order.2.2.2 rwEmpty [5, 2, 9] 9 (by decide)⟩

/-! Order independence of Added records (C8). -/

/-- C8 counterexample: from entities 0 and 1 both tagged and unlinked with an
empty render world, the two processing orders do not produce the same set of
primary/secondary link pairs: order 0-then-1 maps 0 to render id 0, the
reverse order maps 0 to render id 1. -/
theorem C8_counterexample :
    ¬ (∀ p s, linkPair wAB.1 p s ↔ linkPair wBA.1 p s) := by
  intro h
  have h1 : linkPair wAB.1 0 0 := by decide
  have h2 : ¬ linkPair wBA.1 0 0 := by decide
  exact h2 ((h 0 0).mp h1)

theorem sync_two (w : MainWorld × RenderWorld) (r1 r2 : EntityRecord) :
    entity_sync_system w [r1, r2] = applyRecord (applyRecord w r1) r2 := rfl

theorem added_preserves_other (mw : MainWorld) (rw : RenderWorld) (b a : Nat)
    (hab : a ≠ b) :
    ((applyRecord (mw, rw) (.Added b)).1).entities a = mw.entities a := by
  rcases hb : mw.entities b with _ | st
  · rw [added_absent_nop mw rw b hb]
  · rcases hrb : st.renderEntity with _ | l
    · rw [added_vacant_spawns mw rw b st hb hrb]
      simp [MainWorld.set, hab]
    · rw [added_occupied_nop mw rw b l st hb hrb]

theorem added_comm_of_inert_left (mw : MainWorld) (rw : RenderWorld) (a b : Nat)
    (hab : a ≠ b)
    (hnop : ∀ (mw2 : MainWorld) (rw2 : RenderWorld), mw2.entities a = mw.entities a →
      applyRecord (mw2, rw2) (.Added a) = (mw2, rw2)) :
    entity_sync_system (mw, rw) [.Added a, .Added b] =
      entity_sync_system (mw, rw) [.Added b, .Added a] := by
  rw [sync_two, sync_two, hnop mw rw rfl]
  have h2 := hnop (applyRecord (mw, rw) (.Added b)).1 (applyRecord (mw, rw) (.Added b)).2
    (added_preserves_other mw rw b a hab)
  simp only [Prod.mk.eta] at h2
  exact h2.symm

theorem spawn_world_entities (rw : RenderWorld) (m n : Nat) :
    ((rw.spawn m).1).entities n =
      if n = rw.nextId then some ⟨some m, false⟩ else rw.entities n := rfl

theorem spawn_world_nextId (rw : RenderWorld) (m : Nat) :
    ((rw.spawn m).1).nextId = rw.nextId + 1 := rfl

/-- C8 amended: for distinct primary entities a and b, processing Added a then
Added b and processing Added b then Added a produce the same set of primary
entities carrying a forward link and the same set of back-linked secondary
entities; only the concrete primary-to-secondary pairing, which depends on
allocation order, may differ. -/
theorem C8_added_order_amended (mw : MainWorld) (rw : RenderWorld) (a b : Nat)
    (hab : a ≠ b) :
    (∀ p, (forwardLink (entity_sync_system (mw, rw) [.Added a, .Added b]).1 p).isSome ↔
          (forwardLink (entity_sync_system (mw, rw) [.Added b, .Added a]).1 p).isSome) ∧
    (∀ r, isBackLinked (entity_sync_system (mw, rw) [.Added a, .Added b]).2 r ↔
          isBackLinked (entity_sync_system (mw, rw) [.Added b, .Added a]).2 r) := by
  rcases ha : mw.entities a with _ | sta
  · rw [added_comm_of_inert_left mw rw a b hab
      (fun mw2 rw2 h => added_absent_nop mw2 rw2 a (h.trans ha))]
    exact ⟨fun p => Iff.rfl, fun r => Iff.rfl⟩
  rcases hra : sta.renderEntity with _ | la
  · rcases hb : mw.entities b with _ | stb
    · rw [← added_comm_of_inert_left mw rw b a (Ne.symm hab)
        (fun mw2 rw2 h => added_absent_nop mw2 rw2 b (h.trans hb))]
      exact ⟨fun p => Iff.rfl, fun r => Iff.rfl⟩
    rcases hrb : stb.renderEntity with _ | lb
    · -- both vacant: each order spawns both, with swapped id allocation
      have hAB : entity_sync_system (mw, rw) [.Added a, .Added b] =
          ((mw.set a ⟨sta.tag, some rw.nextId⟩).set b ⟨stb.tag, some (rw.nextId + 1)⟩,
           (((rw.spawn a).1).spawn b).1) := by
        rw [sync_two, added_vacant_spawns mw rw a sta ha hra,
          added_vacant_spawns _ _ b stb (by simp [MainWorld.set, Ne.symm hab, hb]) hrb]
        rfl
      have hBA : entity_sync_system (mw, rw) [.Added b, .Added a] =
          ((mw.set b ⟨stb.tag, some rw.nextId⟩).set a ⟨sta.tag, some (rw.nextId + 1)⟩,
           (((rw.spawn b).1).spawn a).1) := by
        rw [sync_two, added_vacant_spawns mw rw b stb hb hrb,
          added_vacant_spawns _ _ a sta (by simp [MainWorld.set, hab, ha]) hra]
        rfl
      rw [hAB, hBA]
      constructor
      · intro p
        by_cases hpa : p = a
        · subst hpa
          simp [forwardLink, MainWorld.set, hab]
        by_cases hpb : p = b
        · subst hpb
          simp [forwardLink, MainWorld.set, Ne.symm hab]
        · simp [forwardLink, MainWorld.set, hpa, hpb]
      · intro r
        by_cases hr1 : r = rw.nextId + 1
        · subst hr1
          have e1 : isBackLinked (((rw.spawn a).1.spawn b).1) (rw.nextId + 1) :=
            ⟨⟨some b, false⟩, by simp [spawn_world_entities, spawn_world_nextId], by simp⟩
          have e2 : isBackLinked (((rw.spawn b).1.spawn a).1) (rw.nextId + 1) :=
            ⟨⟨some a, false⟩, by simp [spawn_world_entities, spawn_world_nextId], by simp⟩
          exact iff_of_true e1 e2
        by_cases hr0 : r = rw.nextId
        · subst hr0
          have e1 : isBackLinked (((rw.spawn a).1.spawn b).1) rw.nextId :=
            ⟨⟨some a, false⟩, by simp [spawn_world_entities, spawn_world_nextId, hr1], by simp⟩
          have e2 : isBackLinked (((rw.spawn b).1.spawn a).1) rw.nextId :=
            ⟨⟨some b, false⟩, by simp [spawn_world_entities, spawn_world_nextId, hr1], by simp⟩
          exact iff_of_true e1 e2
        · have q1 : (((rw.spawn a).1.spawn b).1).entities r = rw.entities r := by
            simp [spawn_world_entities, spawn_world_nextId, hr1, hr0]
          have q2 : (((rw.spawn b).1.spawn a).1).entities r = rw.entities r := by
            simp [spawn_world_entities, spawn_world_nextId, hr1, hr0]
          simp only [isBackLinked, q1, q2]
    · rw [← added_comm_of_inert_left mw rw b a (Ne.symm hab)
        (fun mw2 rw2 h => added_occupied_nop mw2 rw2 b lb stb (h.trans hb) hrb)]
      exact ⟨fun p => Iff.rfl, fun r => Iff.rfl⟩
  · rw [added_comm_of_inert_left mw rw a b hab
      (fun mw2 rw2 h => added_occupied_nop mw2 rw2 a la sta (h.trans ha) hra)]
    exact ⟨fun p => Iff.rfl, fun r => Iff.rfl⟩

/-- Witness for the amended C8 at entities 0 and 1 of `mwTwo`. -/
theorem C8_added_order_amended_witness :
    (0 : Nat) ≠ 1 ∧
    ((forwardLink (entity_sync_system (mwTwo, rwEmpty) [.Added 0, .Added 1]).1 0).isSome ↔
     (forwardLink (entity_sync_system (mwTwo, rwEmpty) [.Added 1, .Added 0]).1 0).isSome) :=
  ⟨by decide, (C8_added_order_amended mwTwo rwEmpty 0 1 (by decide)).1 0⟩

end WorldSync

namespace SortedVecSet

/-! Lemmas for the sortedness invariant (C9). -/

theorem mem_insert (z x : Nat) (l : List Nat) :
    z ∈ insert l x ↔ z = x ∨ z ∈ l := by
  induction l with
  | nil => simp [insert]
  | cons y ys ih =>
    rcases lt_trichotomy x y with h1 | rfl | h3
    · rw [insert, if_pos h1]
      simp only [List.mem_cons]
    · rw [insert, if_neg (lt_irrefl x), if_pos rfl]
      simp only [List.mem_cons]
      tauto
    · rw [insert, if_neg (not_lt_of_gt h3), if_neg (Ne.symm (ne_of_lt h3))]
      simp only [List.mem_cons, ih]
      tauto

theorem insert_sorted (x : Nat) (l : List Nat) (h : List.Sorted (· < ·) l) :
    List.Sorted (· < ·) (insert l x) := by
  induction l with
  | nil => simp [insert]
  | cons y ys ih =>
    rw [List.sorted_cons] at h
    rw [insert]
    by_cases h1 : x < y
    · rw [if_pos h1, List.sorted_cons]
      refine ⟨fun b hb => ?_, List.sorted_cons.mpr h⟩
      rcases List.mem_cons.mp hb with rfl | hb
      · exact h1
      · exact h1.trans (h.1 b hb)
    by_cases h2 : x = y
    · rw [if_neg h1, if_pos h2, List.sorted_cons]
      exact h
    · rw [if_neg h1, if_neg h2, List.sorted_cons]
      have hyx : y < x := lt_of_le_of_ne (le_of_not_lt h1) (Ne.symm h2)
      refine ⟨fun b hb => ?_, ih h.2⟩
      rcases (mem_insert b x ys).mp hb with rfl | hb
      · exact hyx
      · exact h.1 b hb

theorem foldl_insert_sorted (v acc : List Nat) (h : List.Sorted (· < ·) acc) :
    List.Sorted (· < ·) (v.foldl insert acc) := by
  induction v generalizing acc with
  | nil => exact h
  | cons a rest ih => exact ih (insert acc a) (insert_sorted a acc h)

theorem remove_sublist (l : List Nat) (x : Nat) :
    List.Sublist (remove l x) l := by
  induction l with
  | nil => simp [remove]
  | cons y ys ih =>
    rw [remove]
    by_cases h : x = y
    · rw [if_pos h]
      exact List.sublist_cons_self y ys
    · rw [if_neg h]
      exact ih.cons₂ y

theorem difference_with_go_sublist (l : List Nat) (other : List Nat) :
    List.Sublist (difference_with_go l other) l := by
  induction l generalizing other with
  | nil => simp [difference_with_go]
  | cons c rest ih =>
    rw [difference_with_go]
    split
    · exact (ih []).cons c
    · split
      · exact (ih _).cons c
      · exact (ih _).cons₂ c

theorem intersect_with_go_sublist (l : List Nat) (other : List Nat) :
    List.Sublist (intersect_with_go l other) l := by
  induction l generalizing other with
  | nil => simp [intersect_with_go]
  | cons c rest ih =>
    rw [intersect_with_go]
    split
    · exact (ih []).cons c
    · split
      · exact (ih _).cons₂ c
      · exact (ih _).cons c

theorem union_with_sorted_mem (l m : List Nat) :
    List.Sorted (· < ·) l → List.Sorted (· < ·) m →
      List.Sorted (· < ·) (union_with l m) ∧
      (∀ z, z ∈ union_with l m ↔ z ∈ l ∨ z ∈ m) := by
  induction l, m using union_with.induct with
  | case1 xs =>
    intro hl hm
    rw [union_with]
    exact ⟨hl, fun z => by simp⟩
  | case2 y ys =>
    intro hl hm
    rw [union_with]
    exact ⟨hm, fun z => by simp⟩
  | case3 x xs y ys h1 ih =>
    intro hl hm
    rw [List.sorted_cons] at hl
    rw [union_with, if_pos h1]
    obtain ⟨ihs, ihmem⟩ := ih hl.2 hm
    rw [List.sorted_cons] at hm
    refine ⟨List.sorted_cons.mpr ⟨fun b hb => ?_, ihs⟩, fun z => ?_⟩
    · rcases (ihmem b).mp hb with hb | hb
      · exact hl.1 b hb
      · rcases List.mem_cons.mp hb with rfl | hb
        · exact h1
        · exact h1.trans (hm.1 b hb)
    · simp only [List.mem_cons, ihmem]
      tauto
  | case4 x xs y ys h1 h2 ih =>
    intro hl hm
    rw [List.sorted_cons] at hl hm
    rw [union_with, if_neg h1, if_pos h2]
    have hsy : List.Sorted (· < ·) (y :: x :: xs) := by
      refine List.sorted_cons.mpr ⟨fun b hb => ?_, List.sorted_cons.mpr hl⟩
      rcases List.mem_cons.mp hb with rfl | hb
      · exact h2
      · exact h2.trans (hl.1 b hb)
    obtain ⟨ihs, ihmem⟩ := ih hsy hm.2
    refine ⟨ihs, fun z => ?_⟩
    rw [ihmem z]
    simp only [List.mem_cons]
    tauto
  | case5 x xs y ys h1 h2 ih =>
    intro hl hm
    rw [List.sorted_cons] at hl hm
    rw [union_with, if_neg h1, if_neg h2]
    have hxy : x = y := le_antisymm (le_of_not_lt h2) (le_of_not_lt h1)
    obtain ⟨ihs, ihmem⟩ := ih hl.2 hm.2
    refine ⟨List.sorted_cons.mpr ⟨fun b hb => ?_, ihs⟩, fun z => ?_⟩
    · rcases (ihmem b).mp hb with hb | hb
      · exact hl.1 b hb
      · exact hxy ▸ hm.1 b hb
    · simp only [List.mem_cons, ihmem, hxy]
      tauto

/-- C9: the invariant of SortedVecSet — the underlying vector is strictly
increasing, hence duplicate-free — is established by new, from_vec and clear,
and preserved by insert, remove, union_with, intersect_with and
difference_with. -/
theorem C9_sorted_invariant :
    Inv new ∧
    (∀ v : List Nat, Inv (from_vec v)) ∧
    (∀ l x, Inv l → Inv (insert l x)) ∧
    (∀ l x, Inv l → Inv (remove l x)) ∧
    (∀ l : List Nat, Inv (clear l)) ∧
    (∀ l m, Inv l → Inv m → Inv (union_with l m)) ∧
    (∀ l m, Inv l → Inv (intersect_with l m)) ∧
    (∀ l m, Inv l → Inv (difference_with l m)) := by
  refine ⟨List.sorted_nil, fun v => foldl_insert_sorted v new List.sorted_nil,
    fun l x h => insert_sorted x l h,
    fun l x h => List.Pairwise.sublist (remove_sublist l x) h,
    fun l => List.sorted_nil,
    fun l m hl hm => (union_with_sorted_mem l m hl hm).1,
    fun l m h => List.Pairwise.sublist (intersect_with_go_sublist l m) h,
    fun l m h => List.Pairwise.sublist (difference_with_go_sublist l m) h⟩

/-- Witness for C9 at the concrete sets 1,3 and 2,4. -/
theorem C9_sorted_invariant_witness :
    Inv [1, 3] ∧ Inv [2, 4] ∧
    Inv (insert [1, 3] 2) ∧ Inv (remove [1, 3] 1) ∧
    Inv (union_with [1, 3] [2, 4]) ∧
    Inv (intersect_with [1, 3] [2, 4]) ∧
    Inv (difference_with [1, 3] [2, 4]) :=
  ⟨by decide, by decide,
   C9_sorted_invariant.2.2.1 [1, 3] 2 (by decide),
   C9_sorted_invariant.2.2.2.1 [1, 3] 1 (by decide),
   C9_sorted_invariant.2.2.2.2.2.1 [1, 3] [2, 4] (by decide) (by decide),
   C9_sorted_invariant.2.2.2.2.2.2.1 [1, 3] [2, 4] (by decide),
   C9_sorted_invariant.2.2.2.2.2.2.2 [1, 3] [2, 4] (by decide)⟩

/-- C10: difference_with does not compute the set difference.  Its retain
condition discards every element of the receiver that is greater than all
elements of the argument: on sets 1,2,3 minus 2 it returns just 1 and drops 3
even though 3 is in the receiver and not in the argument, and subtracting the
empty set empties the receiver. -/
theorem C10_difference_with_drops_tail :
    difference_with [1, 2, 3] [2] = [1] ∧
    (3 : Nat) ∈ ([1, 2, 3] : List Nat) ∧
    (3 : Nat) ∉ ([2] : List Nat) ∧
    (3 : Nat) ∉ difference_with [1, 2, 3] [2] ∧
    difference_with [1] ([] : List Nat) = [] := by
  decide

end SortedVecSet
